import Mathlib

/-!
Verification development for the FinSight mirror-trade processor (`src/app.py`).

The script ingests a trade table, resolves semantically-named columns by
normalized matching (`clean_name` / `find_col`), partitions rows by whether the
market symbol ends in `INR`, derives a mirrored INR-quoted counterpart for each
non-INR row (`extract_quote`, direction flip, best-effort rate conversion), and
finally concatenates, date-coerces and sorts the result.

Modelling decisions (each noted again at the definition it concerns):
* numeric cells are exact rationals (`ℚ`); pandas floats are modelled exactly,
  which agrees with every concrete number appearing in the claims;
* `Value.str` holds non-numeric text, i.e. text `pd.to_numeric` cannot parse;
  cells whose text would parse as a number are modelled directly as `Value.num`;
* `pd.to_datetime(·, errors="coerce")` is modelled for ISO `YYYY-MM-DD` strings
  (`parseIso`); everything else coerces to the missing marker, which is faithful
  up to the choice of which strings count as parseable dates;
* `sort_values(by=date_col)` is modelled as a stable ascending sort with missing
  dates placed last (pandas' `na_position='last'` default);
* the helper column `"__quote__"` (created and dropped again inside the script)
  is not represented: it never reaches the output.
-/

namespace FinSight

/-! ### Cell values -/

/-- A spreadsheet cell. `num` is an exact numeric value, `str` is non-numeric
text, `na` is a missing value (pandas `NaN`). -/
inductive Value where
  | num (q : ℚ)
  | str (s : String)
  | na
deriving DecidableEq, Repr

/-- A date cell: raw text (`dstr`), an already-parsed datetime ordered by an
integer key (`dnum`), or missing (`dna`, pandas `NaT`). -/
inductive DateCell where
  | dstr (s : String)
  | dnum (t : Int)
  | dna
deriving DecidableEq, Repr

/-- `pd.to_numeric(·, errors="coerce")` on one cell: numeric cells pass
through, everything else becomes missing. It never raises. -/
def toNumeric : Value → Option ℚ
  | .num q => some q
  | .str _ => none
  | .na => none

/-- NaN-propagating multiplication of two coerced cells, as in the element-wise
pandas product of two `to_numeric` results. -/
def numMul : Option ℚ → Option ℚ → Option ℚ
  | some a, some b => some (a * b)
  | _, _ => none

/-- Store a coerced numeric result back into a cell (`NaN` for missing). -/
def ofNum : Option ℚ → Value
  | some q => .num q
  | none => .na

/-! ### String helpers (Python string methods, ASCII) -/

/-- Python `str.upper()` (ASCII). -/
def strUpper (s : String) : String := ⟨s.data.map Char.toUpper⟩

/-- Drop elements satisfying `p` from both ends of a list. -/
def stripList (p : Char → Bool) (l : List Char) : List Char :=
  ((l.dropWhile p).reverse.dropWhile p).reverse

/-- Python `str.strip()` (whitespace, ASCII). -/
def strStrip (s : String) : String := ⟨stripList Char.isWhitespace s.data⟩

/-- Python `s.endswith(t)`. -/
def strEndsWith (s t : String) : Bool := t.data.isSuffixOf s.data

/-! ### Header resolution (`clean_name`, `find_col`, lines 11-22, 71-92) -/

/-- Worker for `collapseSep`: the flag records whether the previous character
belonged to a non-alphanumeric run (whose underscore was already emitted). -/
def collapseAux : Bool → List Char → List Char
  | _, [] => []
  | inRun, c :: cs =>
    if c.isAlphanum then c :: collapseAux false cs
    else if inRun then collapseAux true cs
    else '_' :: collapseAux true cs

/-- Replace every maximal run of non-alphanumeric characters by a single
underscore: the effect of `re.sub(r'[^0-9a-zA-Z]+', '_', s)`. -/
def collapseSep (l : List Char) : List Char := collapseAux false l

/-- `clean_name` from `app.py`: substitute non-alphanumeric runs by `_`, strip
`_` from both ends, lowercase. -/
def clean_name (s : String) : String :=
  ⟨(stripList (fun c => c == '_') (collapseSep s.data)).map Char.toLower⟩

/-- `find_col` from `app.py`: first pattern (priority order), then first column
(left-to-right), matching by equality of cleaned names. (The `isinstance`
wrapper for a lone string pattern is irrelevant: every call site passes a
list.) -/
def find_col (orig_cols : List String) (patterns : List String) : Option String :=
  patterns.findSome? (fun pat => orig_cols.find? (fun c => clean_name c == clean_name pat))

/-- The candidate header names for each role (lines 71-79 of `app.py`);
unknown role names have no candidates, matching `dict.get` returning `None`. -/
def roleCandidates : String → List String
  | "market" => ["market", "pair", "market_2"]
  | "date" => ["date", "trade date", "trade_date"]
  | "trade_type" => ["trade type", "trade_type", "side", "action"]
  | "quantity" => ["quantity", "qty", "totalvolume", "total_volume"]
  | "price" => ["price", "final price", "rate", "actualrate"]
  | "total" => ["total", "amount", "total_inr", "gross_amount"]
  | "usd_inr" => ["usd_inr_rate", "usd_inr", "usd-inr", "usd inr"]
  | _ => []

/-- The role-to-column mapping `col` of `app.py`. -/
structure ColMap where
  market : Option String
  date : Option String
  trade_type : Option String
  quantity : Option String
  price : Option String
  total : Option String
  usd_inr : Option String
deriving DecidableEq, Repr

/-- Build the mapping by `find_col` per role (lines 71-79). -/
def resolveCols (orig_cols : List String) : ColMap :=
  { market := find_col orig_cols (roleCandidates "market")
    date := find_col orig_cols (roleCandidates "date")
    trade_type := find_col orig_cols (roleCandidates "trade_type")
    quantity := find_col orig_cols (roleCandidates "quantity")
    price := find_col orig_cols (roleCandidates "price")
    total := find_col orig_cols (roleCandidates "total")
    usd_inr := find_col orig_cols (roleCandidates "usd_inr") }

/-- `col.get(r)`: look a role up in the mapping, `none` for unknown keys. -/
def getRole (m : ColMap) : String → Option String
  | "market" => m.market
  | "date" => m.date
  | "trade_type" => m.trade_type
  | "quantity" => m.quantity
  | "price" => m.price
  | "total" => m.total
  | "usd_inr" => m.usd_inr
  | _ => none

/-- The six required roles, in the order of line 87. -/
def requiredRoles : List String :=
  ["market", "date", "trade_type", "quantity", "price", "total"]

/-- `missing = [r for r in required if col.get(r) is None]` (line 88). -/
def missingOf (orig_cols : List String) : List String :=
  requiredRoles.filter (fun r => (getRole (resolveCols orig_cols) r).isNone)

/-! ### Quote extraction (`extract_quote`, lines 24-34) -/

/-- `s.split("-")[-1]`: the segment after the last `-` (the whole list when no
`-` occurs; the branch using it only runs when one does). -/
def afterLastDash (l : List Char) : List Char :=
  (l.reverse.takeWhile (fun c => c != '-')).reverse

/-- The fixed priority list of known quote currencies (line 30). -/
def commonQuotes : List String := ["USDT", "BUSD", "USD", "ETH", "BTC", "INR"]

/-- Python `s[-3:]`: the last `min 3 (length s)` characters. -/
def lastThree (l : List Char) : List Char := l.drop (l.length - 3)

/-- `extract_quote` from `app.py`: uppercase and strip, take the segment after
the last `-` if any, else the first known quote the symbol ends with, else the
last three characters. -/
def extract_quote (market_str : String) : String :=
  let s := strStrip (strUpper market_str)
  if s.data.contains '-' then ⟨afterLastDash s.data⟩
  else
    match commonQuotes.find? (fun q => strEndsWith s q) with
    | some q => q
    | none => ⟨lastThree s.data⟩

/-! ### Rows and the mirror engine (lines 95-157) -/

/-- One table row, projected onto the resolved role columns. The market and
trade-type cells are modelled as text (the script stringifies them with
`astype(str)` before use anyway). -/
structure Row where
  market : String
  date : DateCell
  trade_type : String
  quantity : Value
  price : Value
  total : Value
  usd_inr : Value
deriving DecidableEq, Repr

/-- The partition predicate of line 108:
`df[mkt_col].astype(str).str.upper().str.endswith("INR")` — note: uppercased
but NOT stripped. -/
def is_inr (r : Row) : Bool := strEndsWith (strUpper r.market) "INR"

/-- The direction flip of lines 128-130: uppercase, swap `BUY`/`SELL`, pass
anything else through (already uppercased). -/
def flipSide (t : String) : String :=
  let x := strUpper t
  if x = "SELL" then "BUY" else if x = "BUY" then "SELL" else x

/-- Derive one mirrored row (lines 123-145): rewrite the market to
`{quote}INR`, flip the side, keep the quantity; when the rate column is bound,
coerce price/total/rate to numerics, multiply, and set the rate cell to `1`.
The `try` body consists of `pd.to_numeric(·, errors="coerce")` calls,
element-wise products and column assignments, all of which are total (coercion
yields `NaN` rather than raising), so the `except` arm at lines 142-143 is
unreachable and no conversion happens outside the `if usd_col` guard. -/
def mirrorRow (hasUsd : Bool) (r : Row) : Row :=
  let base : Row :=
    { r with market := extract_quote r.market ++ "INR"
             trade_type := flipSide r.trade_type }
  if hasUsd then
    { base with price := ofNum (numMul (toNumeric r.price) (toNumeric r.usd_inr))
                total := ofNum (numMul (toNumeric r.total) (toNumeric r.usd_inr))
                usd_inr := .num 1 }
  else base

/-- The mirrored block: one derived row per non-INR input row, in input
order (lines 110 and 123). -/
def mirrorsOf (hasUsd : Bool) (rows : List Row) : List Row :=
  (rows.filter (fun r => !is_inr r)).map (mirrorRow hasUsd)

/-! ### Date coercion and sorting (lines 152-157) -/

/-- Check that every character is an ASCII digit. -/
def allDigits (l : List Char) : Bool := l.all Char.isDigit

/-- Decimal value of a digit string. -/
def digitsToNat (l : List Char) : Nat :=
  l.foldl (fun n c => n * 10 + (c.toNat - '0'.toNat)) 0

/-- Split a character list at every `-`. -/
def splitDash : List Char → List (List Char)
  | [] => [[]]
  | c :: cs =>
    if c = '-' then [] :: splitDash cs
    else
      match splitDash cs with
      | [] => [[c]]
      | h :: t => (c :: h) :: t

/-- Date parsing model for `pd.to_datetime`: ISO `YYYY-MM-DD` text parses to
the integer key `y*10000 + m*100 + d`; anything else fails. -/
def parseIso (s : String) : Option Int :=
  match splitDash s.data with
  | [y, m, d] =>
    if allDigits y && allDigits m && allDigits d
        && y.length == 4 && m.length == 2 && d.length == 2
        && decide (1 ≤ digitsToNat m) && decide (digitsToNat m ≤ 12)
        && decide (1 ≤ digitsToNat d) && decide (digitsToNat d ≤ 31) then
      some ((digitsToNat y * 10000 + digitsToNat m * 100 + digitsToNat d : Nat) : Int)
    else none
  | _ => none

/-- `pd.to_datetime(·, errors="coerce")` on one cell: text parses or becomes
missing, datetimes pass through, missing stays missing. It never raises. -/
def toDatetime : DateCell → DateCell
  | .dstr s => match parseIso s with
    | some t => .dnum t
    | none => .dna
  | .dnum t => .dnum t
  | .dna => .dna

/-- The column assignment `final_df[date_col] = pd.to_datetime(...)` applied to
one row: only the date cell changes. -/
def coerceDate (r : Row) : Row := { r with date := toDatetime r.date }

/-- The sort key of a (coerced) row: `none` is `NaT`. -/
def dateKey (r : Row) : Option Int :=
  match r.date with
  | .dnum t => some t
  | _ => none

/-- Boolean sort order: ascending by date, missing dates after every parseable
date (pandas `na_position='last'`). -/
def dateLeB (a b : Row) : Bool :=
  match dateKey a, dateKey b with
  | some x, some y => decide (x ≤ y)
  | some _, none => true
  | none, some _ => false
  | none, none => true

/-- The sort order as a decidable relation. -/
def dateRel (a b : Row) : Prop := dateLeB a b = true

instance : DecidableRel dateRel := fun a b => instDecidableEqBool (dateLeB a b) true

instance : IsTotal Row dateRel :=
  ⟨by
    intro a b
    unfold dateRel dateLeB
    cases dateKey a <;> cases dateKey b <;> simp
    omega⟩

instance : IsTrans Row dateRel :=
  ⟨by
    intro a b c
    unfold dateRel dateLeB
    cases dateKey a <;> cases dateKey b <;> cases dateKey c <;> simp
    all_goals omega⟩

/-- Lines 153-155: coerce every date cell, then sort ascending by it, missing
last. `pd.to_datetime(·, errors="coerce")` and `sort_values` are total, so the
`except: pass` arm at lines 156-157 is unreachable and the sort always runs.
The sort is modelled as stable (insertion sort). -/
def sortStep (l : List Row) : List Row :=
  List.insertionSort dateRel (l.map coerceDate)

/-! ### The whole processing block (lines 95-157) -/

/-- Outcome of the processing block: the output rows, whether the no-mirroring
early exit of lines 112-120 fired (original table offered unchanged), and
whether a degraded-conversion warning was shown. The only reachable conversion
warning is line 145 (`usd_col` unbound); the `except` warning of line 143 is
dead code because `errors="coerce"` coercion never raises. -/
structure Result where
  out : List Row
  earlyExit : Bool
  warnConversion : Bool
deriving DecidableEq, Repr

/-- The mirror engine on resolved rows: partition (line 108), early exit
(lines 112-120), mirror derivation and conversion (lines 123-145),
concatenation (line 150), date coercion and sort (lines 152-157). -/
def processW (hasUsd : Bool) (rows : List Row) : Result :=
  let nonInr := rows.filter (fun r => !is_inr r)
  if nonInr.isEmpty then
    { out := rows, earlyExit := true, warnConversion := false }
  else
    { out := sortStep (rows ++ mirrorsOf hasUsd rows)
      earlyExit := false
      warnConversion := !hasUsd }

/-- Just the output rows of the processing block. -/
def process (hasUsd : Bool) (rows : List Row) : List Row :=
  (processW hasUsd rows).out

/-- The validation gate plus processing (lines 87-92 then 95-157): if any
required role is unbound, halt before any transformation with the full list of
missing role names (the script joins them into one `st.error` message);
otherwise run the engine. `if usd_col:` tests string truthiness, which here
coincides with the column being bound: no candidate pattern cleans to the
empty string, so a bound `usd_inr` column name is never empty. -/
def processTable (orig_cols : List String) (rows : List Row) : Except (List String) Result :=
  let missing := missingOf orig_cols
  if missing.isEmpty then
    .ok (processW (resolveCols orig_cols).usd_inr.isSome rows)
  else
    .error missing

/-! ### Concrete sample rows used by witnesses and counterexamples -/

/-- The end-to-end scenario row of the spec (§8): `BTC-USDT`, `BUY`, quantity 2,
price 50000, total 100000, rate 83, with an already-parsed date. -/
def tradeBtc : Row :=
  { market := "BTC-USDT", date := .dnum 0, trade_type := "BUY",
    quantity := .num 2, price := .num 50000, total := .num 100000,
    usd_inr := .num 83 }

/-- A non-INR row whose price cell is non-numeric while the rate is bound and
numeric: numeric coercion of the price fails for this row. -/
def badPriceRow : Row :=
  { market := "BTC-USDT", date := .dnum 0, trade_type := "BUY",
    quantity := .num 1, price := .str "abc", total := .num 100,
    usd_inr := .num 83 }

/-- An INR-native row with no interesting cells. -/
def inrPlain : Row :=
  { market := "USDINR", date := .dna, trade_type := "BUY",
    quantity := .na, price := .na, total := .na, usd_inr := .na }

/-- A row whose market has a trailing space: it ends in `INR` after upper-case
and trim, but not without the trim. -/
def inrTrailingSpace : Row :=
  { market := "USDINR ", date := .dna, trade_type := "BUY",
    quantity := .na, price := .na, total := .na, usd_inr := .na }

/-- An INR-native row whose date cell is parseable text. -/
def inrDated : Row :=
  { market := "USDINR", date := .dstr "2021-01-01", trade_type := "SELL",
    quantity := .na, price := .na, total := .na, usd_inr := .na }

/-- An INR-native row whose date cell is parseable text (second sample). -/
def inrDated2 : Row :=
  { market := "USDINR", date := .dstr "2020-01-01", trade_type := "SELL",
    quantity := .na, price := .na, total := .na, usd_inr := .na }

/-- A non-INR row whose date cell is unparseable text. -/
def btcNoDate : Row :=
  { market := "BTC-USDT", date := .dstr "nonsense", trade_type := "BUY",
    quantity := .na, price := .na, total := .na, usd_inr := .na }

/-- A non-INR row with no interesting cells. -/
def btcPlain : Row :=
  { market := "BTC-USDT", date := .dna, trade_type := "BUY",
    quantity := .na, price := .na, total := .na, usd_inr := .na }

/-! ### Helper lemmas about the engine -/

theorem processW_of_no_nonInr (hasUsd : Bool) (rows : List Row)
    (h : rows.filter (fun r => !is_inr r) = []) :
    processW hasUsd rows = ⟨rows, true, false⟩ := by
  unfold processW
  simp [h]

theorem processW_of_nonInr (hasUsd : Bool) (rows : List Row)
    (h : rows.filter (fun r => !is_inr r) ≠ []) :
    processW hasUsd rows =
      ⟨sortStep (rows ++ mirrorsOf hasUsd rows), false, !hasUsd⟩ := by
  unfold processW
  simp [List.isEmpty_iff, h]

theorem length_sortStep (l : List Row) : (sortStep l).length = l.length := by
  unfold sortStep
  rw [List.length_insertionSort, List.length_map]

theorem length_mirrorsOf (hasUsd : Bool) (rows : List Row) :
    (mirrorsOf hasUsd rows).length = (rows.filter (fun r => !is_inr r)).length :=
  List.length_map _ _

theorem sortStep_perm (l : List Row) : (sortStep l).Perm (l.map coerceDate) :=
  List.perm_insertionSort dateRel _

theorem is_inr_coerceDate (r : Row) : is_inr (coerceDate r) = is_inr r := rfl

theorem is_inr_mirrorRow (hasUsd : Bool) (r : Row) :
    is_inr (mirrorRow hasUsd r) = true := by
  have hm : (mirrorRow hasUsd r).market = extract_quote r.market ++ "INR" := by
    unfold mirrorRow
    cases hasUsd <;> rfl
  unfold is_inr strEndsWith strUpper
  rw [hm]
  rw [List.isSuffixOf_iff_suffix]
  have : ((extract_quote r.market ++ "INR").data.map Char.toUpper)
      = (extract_quote r.market).data.map Char.toUpper ++ "INR".data := by
    rw [String.data_append, List.map_append]
    rfl
  rw [this]
  exact List.suffix_append _ _

/-! ### Claim theorems -/

/-- C1: for every non-INR input row, when the rate column is bound and the
row's price, total and rate are numeric, the mirrored row satisfies
`mirrored.price = price * rate`, `mirrored.total = total * rate`, and its rate
cell is `1`; and on the single input row `market=BTC-USDT, trade_type=BUY,
quantity=2, price=50000, total=100000, usd_inr=83` the output is exactly the
original row unchanged followed by the mirrored row `market=USDTINR,
trade_type=SELL, quantity=2, price=4150000, total=8300000, usd_inr=1`. -/
theorem c1_mirrored_conversion :
    (∀ (r : Row) (p t u : ℚ), is_inr r = false →
        r.price = .num p → r.total = .num t → r.usd_inr = .num u →
        (mirrorRow true r).price = .num (p * u)
        ∧ (mirrorRow true r).total = .num (t * u)
        ∧ (mirrorRow true r).usd_inr = .num 1)
    ∧ process true [tradeBtc] =
        [tradeBtc,
         { market := "USDTINR", date := .dnum 0, trade_type := "SELL",
           quantity := .num 2, price := .num 4150000, total := .num 8300000,
           usd_inr := .num 1 }] := by
  constructor
  · intro r p t u _ hp ht hu
    refine ⟨?_, ?_, ?_⟩ <;> simp [mirrorRow, hp, ht, hu, toNumeric, numMul, ofNum]
  · have h : process true [tradeBtc] = [tradeBtc, mirrorRow true tradeBtc] := rfl
    rw [h]
    have h2 : mirrorRow true tradeBtc =
        ({ market := "USDTINR", date := .dnum 0, trade_type := "SELL",
           quantity := .num 2, price := .num (50000 * 83),
           total := .num (100000 * 83), usd_inr := .num 1 } : Row) := rfl
    rw [h2]
    norm_num

/-- Witness for C1: the conversion equations instantiated on the concrete
scenario row. -/
theorem c1_mirrored_conversion_witness :
    (mirrorRow true tradeBtc).price = .num (50000 * 83)
    ∧ (mirrorRow true tradeBtc).total = .num (100000 * 83)
    ∧ (mirrorRow true tradeBtc).usd_inr = .num 1 :=
  c1_mirrored_conversion.1 tradeBtc 50000 100000 83 (by decide) rfl rfl rfl

/-- C2: for every input that reaches the engine, the output row count equals
the input row count plus the number of rows classified non-INR; in the
no-mirroring early exit the non-INR count is zero and the output equals the
input. -/
theorem c2_row_count (hasUsd : Bool) (rows : List Row) :
    (process hasUsd rows).length
      = rows.length + (rows.filter (fun r => !is_inr r)).length
    ∧ (rows.filter (fun r => !is_inr r) = [] → process hasUsd rows = rows) := by
  by_cases h : rows.filter (fun r => !is_inr r) = []
  · unfold process
    rw [processW_of_no_nonInr hasUsd rows h, h]
    exact ⟨rfl, fun _ => rfl⟩
  · unfold process
    rw [processW_of_nonInr hasUsd rows h]
    refine ⟨?_, fun hc => absurd hc h⟩
    rw [length_sortStep, List.length_append, length_mirrorsOf]

/-- Witness for C2: a table whose single row is INR-native passes through
unchanged, and the scenario table gains exactly one row. -/
theorem c2_row_count_witness :
    process false [inrPlain] = [inrPlain]
    ∧ (process true [tradeBtc]).length = 1 + 1 :=
  ⟨(c2_row_count false [inrPlain]).2 (by decide),
   by rw [(c2_row_count true [tradeBtc]).1]; decide⟩

/-- C5 (code bug): the spec says a warning is emitted when, with the rate
column bound, numeric coercion of price, total or rate fails for some row.
In the code `pd.to_numeric(..., errors="coerce")` never raises — it silently
yields a missing value — so the `except` arm holding exactly that warning
(lines 142-143) is unreachable: on a batch whose price cell is non-numeric the
coercion fails, the mirrored price is a missing value, the batch continues,
and no warning is produced. -/
theorem c5_coercion_failure_is_silent :
    toNumeric badPriceRow.price = none
    ∧ (processW true [badPriceRow]).warnConversion = false
    ∧ (mirrorRow true badPriceRow).price = Value.na
    ∧ (processW true [badPriceRow]).out.length = 2 := by
  refine ⟨rfl, rfl, rfl, ?_⟩
  rw [processW_of_nonInr true [badPriceRow] (by decide)]
  rw [length_sortStep, List.length_append, length_mirrorsOf]
  decide

/-- C6: when the rate column is unbound, mirrored price and total equal the
original row's price and total unchanged, a degraded-conversion warning is
emitted, and processing still completes with output. -/
theorem c6_no_rate_column (rows : List Row) (r : Row) :
    (is_inr r = false →
      (mirrorRow false r).price = r.price ∧ (mirrorRow false r).total = r.total)
    ∧ (rows.filter (fun x => !is_inr x) ≠ [] →
        (processW false rows).warnConversion = true
        ∧ (processW false rows).out.length
            = rows.length + (rows.filter (fun x => !is_inr x)).length) := by
  constructor
  · intro _
    exact ⟨rfl, rfl⟩
  · intro h
    rw [processW_of_nonInr false rows h]
    exact ⟨rfl, by rw [length_sortStep, List.length_append, length_mirrorsOf]⟩

/-- Witness for C6: the unbound-rate path on one plain non-INR row. -/
theorem c6_no_rate_column_witness :
    ((mirrorRow false btcPlain).price = btcPlain.price
      ∧ (mirrorRow false btcPlain).total = btcPlain.total)
    ∧ (processW false [btcPlain]).warnConversion = true
    ∧ (processW false [btcPlain]).out.length = 1 + 1 :=
  ⟨(c6_no_rate_column [btcPlain] btcPlain).1 (by decide),
   (c6_no_rate_column [btcPlain] btcPlain).2 (by decide)⟩

/-- C3 counterexample: the claim fails in two ways. A market with a trailing
space (`"USDINR "`) ends with `INR` after uppercasing and trimming, yet the
code's partition predicate (which does not trim) classifies it non-INR and a
mirrored counterpart IS created (output has 2 rows, not 1). And an INR-native
row with a textual date does NOT appear in the output with every field
unchanged: the sort step replaces its date cell with the parsed value. -/
theorem c3_counterexample :
    (strEndsWith (strStrip (strUpper inrTrailingSpace.market)) "INR" = true
      ∧ (process false [inrTrailingSpace]).length = 2)
    ∧ (strEndsWith (strStrip (strUpper inrDated.market)) "INR" = true
      ∧ inrDated ∉ process false [inrDated, btcPlain]) := by
  refine ⟨⟨by decide, by decide⟩, ⟨by decide, by decide⟩⟩

/-- C3 (amended): for every input row whose market symbol, uppercased (the
code does not trim before this check), ends with `INR`: the row is not in the
partition that gets mirrored, every mirrored row derives from a
non-INR-classified row, and the row appears in the output with every field
except the date unchanged — the date cell is replaced by its parsed value
(missing when unparseable) whenever at least one non-INR row exists; when no
non-INR row exists the whole table, dates included, passes through
unchanged. -/
theorem c3_inr_rows_pass_through (hasUsd : Bool) (rows : List Row) (r : Row)
    (hmem : r ∈ rows) (hinr : is_inr r = true) :
    r ∉ rows.filter (fun x => !is_inr x)
    ∧ (∀ m ∈ mirrorsOf hasUsd rows, ∃ x ∈ rows, is_inr x = false ∧ m = mirrorRow hasUsd x)
    ∧ (rows.filter (fun x => !is_inr x) ≠ [] → coerceDate r ∈ process hasUsd rows)
    ∧ (rows.filter (fun x => !is_inr x) = [] → process hasUsd rows = rows) := by
  refine ⟨?_, ?_, ?_, ?_⟩
  · intro hc
    rw [List.mem_filter] at hc
    rw [hinr] at hc
    exact absurd hc.2 (by decide)
  · intro m hm
    unfold mirrorsOf at hm
    rw [List.mem_map] at hm
    obtain ⟨x, hx, rfl⟩ := hm
    rw [List.mem_filter] at hx
    exact ⟨x, hx.1, by simpa using hx.2, rfl⟩
  · intro h
    unfold process
    rw [processW_of_nonInr hasUsd rows h]
    have : coerceDate r ∈ (rows ++ mirrorsOf hasUsd rows).map coerceDate :=
      List.mem_map_of_mem _ (List.mem_append_left _ hmem)
    exact ((sortStep_perm _).mem_iff).2 this
  · intro h
    unfold process
    rw [processW_of_no_nonInr hasUsd rows h]

/-- Witness for C3 (amended): instantiated on an INR-native dated row next to
a plain non-INR row; its date cell comes out parsed. -/
theorem c3_inr_rows_pass_through_witness :
    coerceDate inrDated ∈ process false [inrDated, btcPlain]
    ∧ process false [inrDated, inrPlain] = [inrDated, inrPlain] :=
  ⟨(c3_inr_rows_pass_through false [inrDated, btcPlain] inrDated
      (by decide) (by decide)).2.2.1 (by decide),
   (c3_inr_rows_pass_through false [inrDated, inrPlain] inrDated
      (by decide) (by decide)).2.2.2 (by decide)⟩

/-- C4 counterexample: with one non-INR row whose date text is unparseable and
one INR row whose date parses, the output is NOT in concatenation order: the
code unconditionally coerces and sorts, so the parseable-dated row moves in
front of the unparseable-dated one (compare the market projections). -/
theorem c4_counterexample :
    toDatetime btcNoDate.date = .dna
    ∧ (process false [btcNoDate, inrDated2]).map Row.market
        = ["USDINR", "BTC-USDT", "USDTINR"]
    ∧ (([btcNoDate, inrDated2] ++ mirrorsOf false [btcNoDate, inrDated2]).map Row.market
        = ["BTC-USDT", "USDINR", "USDTINR"]) := by
  refine ⟨by decide, by decide, by decide⟩

/-- C4 (amended): after concatenating original rows before mirrored rows, the
code always coerces every date cell to its parsed value (missing when
unparseable) and always sorts the combined table ascending by that value with
missing dates placed after all parseable dates; no error is raised, and when
some dates are unparseable the parseable subset is still sorted rather than
the concatenation order being kept. -/
theorem c4_sort_always_happens (hasUsd : Bool) (rows : List Row)
    (h : rows.filter (fun x => !is_inr x) ≠ []) :
    (process hasUsd rows).Perm ((rows ++ mirrorsOf hasUsd rows).map coerceDate)
    ∧ List.Sorted dateRel (process hasUsd rows) := by
  unfold process
  rw [processW_of_nonInr hasUsd rows h]
  exact ⟨sortStep_perm _, List.sorted_insertionSort dateRel _⟩

/-- Witness for C4 (amended): the sorted-output facts on the counterexample
table. -/
theorem c4_sort_always_happens_witness :
    (process false [btcNoDate, inrDated2]).Perm
      (([btcNoDate, inrDated2] ++ mirrorsOf false [btcNoDate, inrDated2]).map coerceDate)
    ∧ List.Sorted dateRel (process false [btcNoDate, inrDated2]) :=
  c4_sort_always_happens false [btcNoDate, inrDated2] (by decide)

/-- C10 counterexample: mirroring applied to the output table DOES create
further mirrored rows, because the output still contains the original non-INR
rows: one non-INR input row yields 2 output rows, and processing that output
again yields 3. -/
theorem c10_counterexample :
    (process false [btcPlain]).length = 2
    ∧ (process false (process false [btcPlain])).length = 3 := by
  refine ⟨by decide, by decide⟩

/-- C10 (amended): every mirrored row's market ends in `INR`, so every
mirrored row is itself classified INR-native by the partition predicate; the
rows of the output classified non-INR are exactly the (date-coerced) non-INR
rows of the input, so mirroring the output would create new mirrors only for
those original rows and none for the mirrored rows. -/
theorem c10_mirrored_rows_are_inr :
    (∀ (hasUsd : Bool) (r : Row), is_inr (mirrorRow hasUsd r) = true)
    ∧ (∀ (hasUsd : Bool) (rows : List Row),
        ((process hasUsd rows).filter (fun x => !is_inr x)).Perm
          ((rows.filter (fun x => !is_inr x)).map coerceDate)) := by
  refine ⟨is_inr_mirrorRow, ?_⟩
  intro hasUsd rows
  by_cases h : rows.filter (fun x => !is_inr x) = []
  · unfold process
    rw [processW_of_no_nonInr hasUsd rows h, h]
    simp [h]
  · unfold process
    rw [processW_of_nonInr hasUsd rows h]
    have hperm := (sortStep_perm (rows ++ mirrorsOf hasUsd rows)).filter
      (fun x => !is_inr x)
    refine hperm.trans ?_
    rw [List.map_append, List.filter_append]
    have hmir : ((mirrorsOf hasUsd rows).map coerceDate).filter
        (fun x => !is_inr x) = [] := by
      rw [List.filter_eq_nil_iff]
      intro a ha
      rw [List.mem_map] at ha
      obtain ⟨b, hb, rfl⟩ := ha
      unfold mirrorsOf at hb
      rw [List.mem_map] at hb
      obtain ⟨c, _, rfl⟩ := hb
      rw [is_inr_coerceDate, is_inr_mirrorRow]
      decide
    rw [hmir, List.append_nil]
    rw [List.filter_map]
    have : ((fun x => !is_inr x) ∘ coerceDate) = (fun x => !is_inr x) := by
      funext x
      simp [Function.comp, is_inr_coerceDate]
    rw [this]

theorem afterLastDash_spec (l : List Char) (h : l.contains '-' = true) :
    (∃ pre, l = pre ++ '-' :: afterLastDash l)
    ∧ (afterLastDash l).contains '-' = false := by
  have hmem : '-' ∈ l.reverse := by
    rw [List.mem_reverse]
    simpa [List.contains] using h
  have hne : l.reverse.dropWhile (fun c => c != '-') ≠ [] := by
    intro heq
    rw [List.dropWhile_eq_nil_iff] at heq
    have := heq '-' hmem
    simp at this
  obtain ⟨d, rest, hd⟩ := List.exists_cons_of_ne_nil hne
  have hdash : d = '-' := by
    have hnp := List.head?_dropWhile_not (fun c => c != '-') l.reverse
    rw [hd] at hnp
    simpa using hnp
  constructor
  · refine ⟨rest.reverse, ?_⟩
    have hsplit : l.reverse
        = l.reverse.takeWhile (fun c => c != '-') ++ d :: rest := by
      rw [← hd, List.takeWhile_append_dropWhile]
    calc l = l.reverse.reverse := (List.reverse_reverse l).symm
      _ = (l.reverse.takeWhile (fun c => c != '-') ++ d :: rest).reverse := by rw [← hsplit]
      _ = rest.reverse ++ '-' :: afterLastDash l := by
          rw [List.reverse_append, hdash]
          simp [afterLastDash]
  · unfold afterLastDash
    have : ¬ '-' ∈ (l.reverse.takeWhile (fun c => c != '-')).reverse := by
      rw [List.mem_reverse]
      intro hmem2
      have := List.mem_takeWhile_imp hmem2
      simp at this
    simpa [List.contains] using this

/-- C7: quote extraction uppercases and trims; with a `-` present it returns
the segment after the last `-` (which itself contains no `-`); otherwise it
returns the first entry of `USDT, BUSD, USD, ETH, BTC, INR` — in that priority
order, as captured by `List.find?` over `commonQuotes` — that the symbol ends
with, and when none matches, the last three characters; and
`extract_quote "BTC-USDT" = "USDT"`, `extract_quote "ETHBTC" = "BTC"`,
`extract_quote "XYZ" = "XYZ"`. -/
theorem c7_extract_quote (s : String) :
    ((strStrip (strUpper s)).data.contains '-' = true →
      (∃ pre, (strStrip (strUpper s)).data = pre ++ '-' :: (extract_quote s).data)
      ∧ (extract_quote s).data.contains '-' = false)
    ∧ ((strStrip (strUpper s)).data.contains '-' = false →
      commonQuotes.find? (fun q => strEndsWith (strStrip (strUpper s)) q)
          = some (extract_quote s)
      ∨ (commonQuotes.find? (fun q => strEndsWith (strStrip (strUpper s)) q) = none
          ∧ (extract_quote s).data = lastThree (strStrip (strUpper s)).data))
    ∧ extract_quote "BTC-USDT" = "USDT"
    ∧ extract_quote "ETHBTC" = "BTC"
    ∧ extract_quote "XYZ" = "XYZ" := by
  refine ⟨?_, ?_, by decide, by decide, by decide⟩
  · intro h
    have hval : extract_quote s = ⟨afterLastDash (strStrip (strUpper s)).data⟩ := by
      unfold extract_quote
      rw [if_pos]
      exact h
    rw [hval]
    exact afterLastDash_spec _ h
  · intro h
    unfold extract_quote
    rw [if_neg (by rw [h]; exact Bool.false_ne_true)]
    cases hfind : commonQuotes.find? (fun q => strEndsWith (strStrip (strUpper s)) q) with
    | none => exact Or.inr ⟨rfl, rfl⟩
    | some q => exact Or.inl rfl

/-- Witness for C7: the dash case applied to the concrete symbol
`BTC-USDT`. -/
theorem c7_extract_quote_witness :
    (∃ pre, (strStrip (strUpper "BTC-USDT")).data
        = pre ++ '-' :: (extract_quote "BTC-USDT").data)
    ∧ (extract_quote "BTC-USDT").data.contains '-' = false :=
  (c7_extract_quote "BTC-USDT").1 (by decide)

/-- C8: if one or more required roles resolve to no column, processing halts
before any transformation with a single error carrying every missing role
name (not just the first); an unbound optional `usd_inr` role is never among
the missing roles and never causes the halt. -/
theorem c8_missing_columns (cols : List String) (rows : List Row) :
    "usd_inr" ∉ missingOf cols
    ∧ (∀ role ∈ requiredRoles,
        (role ∈ missingOf cols ↔ getRole (resolveCols cols) role = none))
    ∧ (missingOf cols ≠ [] → processTable cols rows = .error (missingOf cols))
    ∧ (missingOf cols = [] →
        processTable cols rows
          = .ok (processW (resolveCols cols).usd_inr.isSome rows)) := by
  refine ⟨?_, ?_, ?_, ?_⟩
  · intro hmem
    have := (List.mem_filter.1 hmem).1
    exact absurd this (by decide)
  · intro role hrole
    unfold missingOf
    rw [List.mem_filter]
    simp [hrole, Option.isNone_iff_eq_none]
  · intro h
    unfold processTable
    rw [if_neg]
    simpa [List.isEmpty_iff] using h
  · intro h
    unfold processTable
    rw [if_pos]
    simpa [List.isEmpty_iff] using h

/-- Witness for C8: a header set binding only `market` and `date` halts with
exactly the other four required roles reported, and a full header set with no
rate column processes with the rate treated as unbound. -/
theorem c8_missing_columns_witness :
    processTable ["Market", "Trade Date"] []
      = .error ["trade_type", "quantity", "price", "total"]
    ∧ processTable ["Market", "Trade Date", "Side", "Qty", "Final Price", "Amount"] []
      = .ok (processW false []) := by
  constructor
  · have h := (c8_missing_columns ["Market", "Trade Date"] []).2.2.1 (by decide)
    rw [h, show missingOf ["Market", "Trade Date"]
        = ["trade_type", "quantity", "price", "total"] from by decide]
  · have h := (c8_missing_columns
      ["Market", "Trade Date", "Side", "Qty", "Final Price", "Amount"] []).2.2.2 (by decide)
    rw [h, show (resolveCols
        ["Market", "Trade Date", "Side", "Qty", "Final Price", "Amount"]).usd_inr.isSome
        = false from by decide]

theorem find_col_eq_some_iff (cols pats : List String) (c : String) :
    find_col cols pats = some c ↔
      ∃ ps1 p ps2 cs1 cs2,
        pats = ps1 ++ p :: ps2 ∧ cols = cs1 ++ c :: cs2 ∧
        clean_name c = clean_name p ∧
        (∀ p' ∈ ps1, ∀ c' ∈ cols, clean_name c' ≠ clean_name p') ∧
        (∀ c' ∈ cs1, clean_name c' ≠ clean_name p) := by
  unfold find_col
  rw [List.findSome?_eq_some_iff]
  constructor
  · rintro ⟨l₁, p, l₂, rfl, hfind, hnone⟩
    rw [List.find?_eq_some] at hfind
    obtain ⟨hbeq, as, bs, hcols, hprev⟩ := hfind
    refine ⟨l₁, p, l₂, as, bs, rfl, hcols, by simpa using hbeq, ?_, ?_⟩
    · intro p' hp' c' hc'
      have h2 := hnone p' hp'
      rw [List.find?_eq_none] at h2
      simpa using h2 c' hc'
    · intro c' hc'
      simpa using hprev c' hc'
  · rintro ⟨ps1, p, ps2, cs1, cs2, rfl, hcols, hclean, hearlier, hprev⟩
    refine ⟨ps1, p, ps2, rfl, ?_, ?_⟩
    · rw [List.find?_eq_some]
      refine ⟨by simpa using hclean, cs1, cs2, hcols, ?_⟩
      intro a ha
      simpa using hprev a ha
    · intro x hx
      rw [List.find?_eq_none]
      intro c' hc'
      simpa using hearlier x hx c' hc'

theorem find_col_isSome_iff (cols pats : List String) :
    (find_col cols pats).isSome
      ↔ ∃ p ∈ pats, ∃ c ∈ cols, clean_name c = clean_name p := by
  unfold find_col
  rw [List.findSome?_isSome_iff]
  constructor
  · rintro ⟨p, hp, hsome⟩
    rw [List.find?_isSome] at hsome
    obtain ⟨c, hc, hbeq⟩ := hsome
    exact ⟨p, hp, c, hc, by simpa using hbeq⟩
  · rintro ⟨p, hp, c, hc, heq⟩
    refine ⟨p, hp, ?_⟩
    rw [List.find?_isSome]
    exact ⟨c, hc, by simpa using heq⟩

/-- C9: header resolution binds a role to a column iff the column name and a
candidate pattern reduce to the same `clean_name` token — never by substring
or distance — and the bound column is the first match, taking candidates in
priority order and columns in left-to-right order (the five-way decomposition
says: no earlier candidate matches any column, and no earlier column matches
the bound candidate); and every header set with at least one
exact-after-normalization match per required role resolves with no missing
roles. -/
theorem c9_header_resolution :
    (∀ (cols pats : List String) (c : String),
      find_col cols pats = some c ↔
        ∃ ps1 p ps2 cs1 cs2,
          pats = ps1 ++ p :: ps2 ∧ cols = cs1 ++ c :: cs2 ∧
          clean_name c = clean_name p ∧
          (∀ p' ∈ ps1, ∀ c' ∈ cols, clean_name c' ≠ clean_name p') ∧
          (∀ c' ∈ cs1, clean_name c' ≠ clean_name p))
    ∧ (∀ cols : List String,
        (∀ role ∈ requiredRoles, ∃ p ∈ roleCandidates role, ∃ c ∈ cols,
            clean_name c = clean_name p) →
        missingOf cols = []) := by
  refine ⟨find_col_eq_some_iff, ?_⟩
  intro cols hall
  unfold missingOf
  rw [List.filter_eq_nil_iff]
  intro role hrole
  have hgr : getRole (resolveCols cols) role = find_col cols (roleCandidates role) := by
    fin_cases hrole <;> rfl
  have hs := (find_col_isSome_iff cols (roleCandidates role)).2 (hall role hrole)
  rw [hgr]
  simp [Option.isNone_iff_eq_none]
  intro hnone
  rw [hnone] at hs
  exact absurd hs (by simp)

/-- Witness for C9: a realistic header set containing one
exact-after-normalization match per required role resolves completely. -/
theorem c9_header_resolution_witness :
    missingOf ["Sl No", "Market", "Trade Date", "Side", "Qty", "Final Price", "Amount"]
      = [] :=
  c9_header_resolution.2
    ["Sl No", "Market", "Trade Date", "Side", "Qty", "Final Price", "Amount"]
    (by decide)

end FinSight
